import Mathlib

/-!
Verification development for the `retriever` repository (kharrigian/retriever),
a Reddit data-retrieval client.  The definitions below are a shallow embedding
of `src/retriever/api/reddit.py`: external backend calls (PMAW search, the raw
Pushshift HTTP endpoint, PRAW) become oracle function parameters, pandas
DataFrames become `List Post` values sorted explicitly, Python `None`-vs-value
unions become `Option`, and a raised exception becomes `Except.error`.
Python loops whose termination is not syntactically guaranteed (the
`_chunk_timestamps` while-loop and the `_retrieve_submission_comments`
recursion) are embedded with explicit fuel; `none` (resp. truncation at fuel
zero) models a run of the source that never returns.
-/

namespace Retriever

/-- Post record: the fields of a submission/comment row that the claims are
about.  The source keeps many more metadata columns (`reddit.py` lines
286-326 and 354-380); they never influence control flow, so they are elided.
`id` is the unique identifier, `created_utc` the creation timestamp in epoch
seconds, `link_id` the parent submission of a comment. -/
structure Post where
  id : String
  created_utc : Int
  link_id : String
deriving DecidableEq, Repr

/-- Comparison used by every `sort_values("created_utc", ascending=True)` in
the source: non-decreasing creation timestamp. -/
def byCreated (a b : Post) : Prop := a.created_utc ≤ b.created_utc

instance : DecidableRel byCreated := fun a b => inferInstanceAs (Decidable (a.created_utc ≤ b.created_utc))

instance : IsTotal Post byCreated := ⟨fun a b => Int.le_total a.created_utc b.created_utc⟩

instance : IsTrans Post byCreated := ⟨fun _ _ _ h h' => le_trans h h'⟩

/-- Stable sort of a record list by `created_utc`, the embedding of
`df.sort_values("created_utc", ascending=True)`. -/
def sortByCreated (l : List Post) : List Post := List.insertionSort byCreated l

/-- Maximum number of results returnable by Pushshift (`reddit.py` line 37). -/
def MAX_PER_REQUEST : Nat := 1000

/-- Default maximum number of results (`reddit.py` line 40). -/
def DEFAULT_REQUEST_LIMIT : Nat := 100

/-- Base frequencies in seconds (`reddit.py` lines 235-242).  Note the
docstring of `_parse_date_frequency` advertises seconds ("s") but the
dictionary has no such key. -/
def base_freqs (u : String) : Option Nat :=
  match u with
  | "m" => some 60
  | "h" => some (60 * 60)
  | "d" => some (60 * 60 * 24)
  | "w" => some (60 * 60 * 24 * 7)
  | "mo" => some (60 * 60 * 24 * 31)
  | "y" => some (60 * 60 * 24 * 365)
  | _ => none

/-- Value of a string of decimal digits, as Python `int(...)` computes it on
the digit prefix sliced off by `_parse_date_frequency`. -/
def digits_value (cs : List Char) : Nat :=
  cs.foldl (fun a c => a * 10 + (c.toNat - 48)) 0

/-- Embedding of `_parse_date_frequency` (`reddit.py` lines 221-255).  The
scan index stops at the first non-digit or at `len(freq) - 1`, whichever
comes first; a missing multiplier defaults to 1; an unknown base unit raises
`ValueError`, modelled as `none`. -/
def parse_date_frequency (freq : String) : Option Nat :=
  let cs := freq.toList.map Char.toLower
  let freq_ind := min (cs.takeWhile Char.isDigit).length (cs.length - 1)
  let mult := if 0 < freq_ind then digits_value (cs.take freq_ind) else 1
  match base_freqs (String.mk (cs.drop freq_ind)) with
  | some b => some (mult * b)
  | none => none

/-- Fuel-indexed embedding of the `while time_chunks[-1] < end_epoch` loop of
`_chunk_timestamps` (`reddit.py` lines 268-270): `acc` is the list built so
far and `last` its final element.  `none` means the fuel ran out before the
loop finished; the fuel passed by `chunk_timestamps` is provably sufficient
whenever the parsed period is positive, so `none` exactly models a source run
that loops forever (which happens when the period is 0). -/
def chunk_go (p : Nat) (e : Int) : Nat → List Int → Int → Option (List Int)
  | 0, acc, last => if last < e then none else some acc
  | fuel + 1, acc, last =>
    if last < e then
      chunk_go p e fuel (acc ++ [min (last + (p : Int)) e]) (min (last + (p : Int)) e)
    else some acc

/-- Embedding of `_chunk_timestamps` (`reddit.py` lines 257-271).  With no
chunksize the result is `[start_epoch, end_epoch]`; otherwise the frequency
string is parsed (`none` on `ValueError`) and boundaries are appended until
the end epoch is reached. -/
def chunk_timestamps (start_epoch end_epoch : Int) (chunksize : Option String) : Option (List Int) :=
  match chunksize with
  | none => some [start_epoch, end_epoch]
  | some freq =>
    match parse_date_frequency freq with
    | none => none
    | some p => chunk_go p end_epoch ((end_epoch - start_epoch).toNat + 1) [start_epoch] start_epoch

/-- Backend oracle for the capped search endpoints: arguments are `since`,
`until`, the request `limit`, and the attempt index within the current retry
loop; `none` models a raised transport/backend exception and `some raw` a
successful response. -/
abbrev SearchFn := Int → Int → Nat → Nat → Option (List Post)

/-- Request limit passed to the backend:
`min(limit, MAX_PER_REQUEST) if limit is not None else MAX_PER_REQUEST`
(`reddit.py` line 603 and analogues). -/
def req_limit : Option Nat → Nat
  | some l => min l MAX_PER_REQUEST
  | none => MAX_PER_REQUEST

/-- Embedding of `_parse_pmaw_submission_request` (`reddit.py` lines 273-339):
field extraction to the fixed schema is the identity on the embedded record
type, and a non-empty frame is sorted by `created_utc`. -/
def parse_pmaw_submission_request (rs : List Post) : List Post :=
  if 0 < rs.length then sortByCreated rs else rs

/-- Embedding of `_parse_pmaw_comment_request` (`reddit.py` lines 341-411);
after field normalization (identity here) a non-empty frame is sorted by
`created_utc`. -/
def parse_pmaw_comment_request (rs : List Post) : List Post :=
  if 0 < rs.length then sortByCreated rs else rs

/-- Mutable state of the paginated fetch loop shared by
`retrieve_subreddit_submissions`, `retrieve_author_comments` and
`retrieve_author_submissions`: the current backoff value, the trace of
`sleep(...)` durations performed so far, the running record count `total`,
and the cached per-chunk frames `df_all`. -/
structure LoopState where
  backoff : Nat
  sleeps : List Nat
  total : Nat
  dfs : List (List Post)

/-- Embedding of the inner `for _ in range(retries)` attempt loop
(`reddit.py` lines 596-629, 858-886, 938-966): on a successful request the
parsed frame is sorted and cached when non-empty and the loop breaks; on an
exception the loop sleeps for `backoff` seconds and updates
`backoff = 2 ** backoff` before the next attempt. -/
def run_attempts (parse : List Post → List Post) (search : SearchFn) (tcstart tcstop : Int)
    (lim : Option Nat) : Nat → Nat → LoopState → LoopState
  | 0, _, st => st
  | fuel + 1, attempt, st =>
    match search tcstart (tcstop + 1) (req_limit lim) attempt with
    | some raw =>
      let df := parse raw
      if 0 < df.length then
        let df2 := sortByCreated df
        { st with dfs := st.dfs ++ [df2], total := st.total + df2.length }
      else st
    | none =>
      run_attempts parse search tcstart tcstop lim fuel (attempt + 1)
        { st with sleeps := st.sleeps ++ [st.backoff], backoff := 2 ^ st.backoff }

/-- Test `limit is not None and total >= limit` guarding each sub-interval
(`reddit.py` lines 593, 855, 936). -/
def limit_reached : Option Nat → Nat → Bool
  | none, _ => false
  | some l, t => l ≤ t

/-- Embedding of the outer
`for tcstart, tcstop in zip(time_chunks[:-1], time_chunks[1:])` loop of the
three paginated retrieval functions. -/
def chunk_loop (parse : List Post → List Post) (search : SearchFn) (lim : Option Nat)
    (retries : Nat) : List (Int × Int) → LoopState → LoopState
  | [], st => st
  | (tcstart, tcstop) :: rest, st =>
    if limit_reached lim st.total then st
    else chunk_loop parse search lim retries rest (run_attempts parse search tcstart tcstop lim retries 0 st)

/-- Final `df_all.iloc[:limit]` reduction (`reddit.py` lines 636-637,
893-894, 973-974). -/
def truncate_limit : Option Nat → List Post → List Post
  | none, l => l
  | some m, l => if m < l.length then l.take m else l

/-- Common body of the three paginated fetch-with-retry operations
(`reddit.py` lines 578-641, 841-895, 922-975, which are line-for-line the
same loop): chunk the epoch range, run the retry loop per sub-interval,
return Python `None` (`none`) when nothing was cached, otherwise concatenate
and truncate to the limit.  The first result component is the returned frame
and the second the trace of sleep durations; `Except.error` models a call
that never returns normally (frequency `ValueError`, or the chunker looping
forever). -/
def fetch_paginated (parse : List Post → List Post) (search : SearchFn)
    (start_epoch end_epoch : Int) (chunksize : Option String) (lim : Option Nat)
    (retries backoff : Nat) : Except Unit (Option (List Post) × List Nat) :=
  match chunk_timestamps start_epoch end_epoch chunksize with
  | none => Except.error ()
  | some tcs =>
    let st := chunk_loop parse search lim retries (tcs.dropLast.zip tcs.tail) ⟨backoff, [], 0, []⟩
    if st.dfs.length = 0 then Except.ok (none, st.sleeps)
    else Except.ok (some (truncate_limit lim st.dfs.flatten), st.sleeps)

/-- Embedding of `retrieve_subreddit_submissions` (`reddit.py` lines 552-641).
The subreddit name and the optional `cols` projection live inside the search
oracle; the claims under verification concern the full records. -/
def retrieve_subreddit_submissions (search : SearchFn) (start_epoch end_epoch : Int)
    (chunksize : Option String) (lim : Option Nat) (retries backoff : Nat) :
    Except Unit (Option (List Post) × List Nat) :=
  fetch_paginated parse_pmaw_submission_request search start_epoch end_epoch chunksize lim retries backoff

/-- Embedding of `retrieve_author_comments` (`reddit.py` lines 816-895); the
author filter lives inside the search oracle. -/
def retrieve_author_comments (search : SearchFn) (start_epoch end_epoch : Int)
    (chunksize : Option String) (lim : Option Nat) (retries backoff : Nat) :
    Except Unit (Option (List Post) × List Nat) :=
  fetch_paginated parse_pmaw_comment_request search start_epoch end_epoch chunksize lim retries backoff

/-- Embedding of `retrieve_author_submissions` (`reddit.py` lines 897-975). -/
def retrieve_author_submissions (search : SearchFn) (start_epoch end_epoch : Int)
    (chunksize : Option String) (lim : Option Nat) (retries backoff : Nat) :
    Except Unit (Option (List Post) × List Nat) :=
  fetch_paginated parse_pmaw_submission_request search start_epoch end_epoch chunksize lim retries backoff

/-- Backend oracle for the raw Pushshift comment-ID search used by
`_retrieve_submission_comments`: given the `since` and `until` epochs of the
query URL it returns the list of comment identifiers in the response (the
claims under verification fix a deterministic, always-successful backend;
the submission filter is baked into the oracle). -/
abbrev IdBackend := Int → Int → List Nat

/-- Midpoint `int((start_date + end_date) / 2)` of the binary date-split
(`reddit.py` line 713); Python `int(...)` truncates toward zero, which is
`Int.tdiv`. -/
def midpoint (s e : Int) : Int := Int.tdiv (s + e) 2

/-- Fuel-indexed embedding of the recursion of `_retrieve_submission_comments`
(`reddit.py` lines 682-725) in the all-requests-succeed case: `acc` is the
shared mutable `comment_ids` list.  If the response holds fewer than 100
identifiers they are appended to the accumulator; otherwise the date range is
split at its midpoint and both halves are queried recursively, the first
half's extended accumulator flowing into the second half exactly as the
mutated Python list does.  At fuel 0 the accumulator is returned unchanged
(the source recursion has no termination guarantee, so any terminating source
run is reproduced by a large enough fuel). -/
def discover_aux (b : IdBackend) : Nat → Int → Int → List Nat → List Nat
  | 0, _, _, acc => acc
  | fuel + 1, s, e, acc =>
    let resp := b s e
    if resp.length < 100 then acc ++ resp
    else discover_aux b fuel (midpoint s e) e (discover_aux b fuel s (midpoint s e) acc)

/-- Variant of `discover_aux` that traverses the two sub-ranges of each split
in the opposite order; used to state that the discovered identifier set does
not depend on the traversal order of the recursive sub-range calls. -/
def discover_aux_rev (b : IdBackend) : Nat → Int → Int → List Nat → List Nat
  | 0, _, _, acc => acc
  | fuel + 1, s, e, acc =>
    let resp := b s e
    if resp.length < 100 then acc ++ resp
    else discover_aux_rev b fuel s (midpoint s e) (discover_aux_rev b fuel (midpoint s e) e acc)

/-- Top-level result of `_retrieve_submission_comments`: the recursion runs on
the shared accumulator and the call returns `list(set(comment_ids))`
(`reddit.py` line 725), embedded as `List.dedup` (the claims compare results
as sets, so the unspecified Python set iteration order is immaterial). -/
def retrieve_submission_comment_ids (b : IdBackend) (fuel : Nat) (s e : Int) (acc : List Nat) : List Nat :=
  (discover_aux b fuel s e acc).dedup

/-- Modelled from the spec: `retriever.util.helpers.chunks` is imported at
`reddit.py` line 30 but `helpers.py` is not under `src/`; following the
spec's description of the Pushshift 100-ID page cap (section 4.3 and the
comment at `reddit.py` line 769), it splits a list into consecutive chunks of
at most `n` elements.  The outer `Nat` is fuel bounded by the list length. -/
def chunks_of_go {α : Type} (n : Nat) : Nat → List α → List (List α)
  | 0, _ => []
  | _, [] => []
  | fuel + 1, l => l.take n :: chunks_of_go n fuel (l.drop n)

/-- Modelled from the spec: wrapper supplying sufficient fuel to
`chunks_of_go` (see there). -/
def chunks_of {α : Type} (n : Nat) (l : List α) : List (List α) :=
  chunks_of_go n l.length l

/-- Embedding of
`comment_data.drop_duplicates(subset=["id"], keep="last")`
(`reddit.py` line 812): keep a row exactly when no later row carries the same
identifier. -/
def drop_duplicates_keep_last : List Post → List Post
  | [] => []
  | r :: rest =>
    if rest.any (fun x => x.id == r.id) then drop_duplicates_keep_last rest
    else r :: drop_duplicates_keep_last rest

/-- PMAW phase of `retrieve_submission_comments` (`reddit.py` lines 760-786):
discover the comment identifiers, fetch them in chunks of 100 through the
`search_comments` oracle, keep the non-empty parsed frames, concatenate and
sort; the second component is `missing_submissions`, i.e. the requested
submissions with no retrieved comment whose `link_id` matches (the Python
`set` difference is embedded as an order-preserving filter, which is
set-equal).  `none` in the first component models `comment_data` still being
the initial Python list. -/
def pmaw_phase (idb : IdBackend) (id_fuel : Nat) (search_comments : List Nat → List Post)
    (submissions_clean : List String) (start_epoch end_epoch : Int) :
    Option (List Post) × List String :=
  let comment_ids := retrieve_submission_comment_ids idb id_fuel start_epoch end_epoch []
  let comment_dfs :=
    ((chunks_of 100 comment_ids).map (fun ch => parse_pmaw_comment_request (search_comments ch))).filter
      (fun d => 0 < d.length)
  if 0 < comment_dfs.length then
    let cd := sortByCreated comment_dfs.flatten
    (some cd, submissions_clean.filter (fun sub => !(cd.any (fun r => r.link_id == sub))))
  else (none, submissions_clean)

/-- Embedding of `retrieve_submission_comments` (`reddit.py` lines 727-814).
Oracles: `praw` is the PRAW instance when configured (`self._praw`), each
call `p sub` being `_retrieve_submission_comments_praw(sub)` (`none` when
that submission has no comments); `idb`/`search_comments` drive the PMAW
phase.  `submissions_clean` is the list after URL/`t3_` cleaning (lines
746-754, not modelled).  `comment_data` is `none` while it is still the
initial Python list and `some` once a DataFrame was assigned; calling
`.sort_values` on the list at line 808 raises `AttributeError`, embedded as
`Except.error ()`. -/
def retrieve_submission_comments (init_praw : Bool) (praw : Option (String → Option (List Post)))
    (allow_praw : Bool) (idb : IdBackend) (id_fuel : Nat)
    (search_comments : List Nat → List Post) (submissions_clean : List String)
    (start_epoch end_epoch : Int) : Except Unit (List Post) :=
  let pmaw_taken := !init_praw || (init_praw && praw.isNone)
  let pmaw_pair :=
    if pmaw_taken then pmaw_phase idb id_fuel search_comments submissions_clean start_epoch end_epoch
    else (none, submissions_clean)
  let comment_data := pmaw_pair.1
  let missing := pmaw_pair.2
  let after_fallback : Except Unit (Option (List Post)) :=
    if 0 < missing.length ∧ praw.isSome ∧ allow_praw then
      let pr := praw.getD (fun _ => none)
      let praw_list := (missing.map pr).reduceOption
      let praw_data : Option (List Post) := if 0 < praw_list.length then some praw_list.flatten else none
      let cd_len := (comment_data.getD []).length
      let cp_len := (praw_data.getD []).length
      let merged : Option (List Post) :=
        if 0 < cd_len ∧ 0 < cp_len then some (comment_data.getD [] ++ praw_data.getD [])
        else if 0 < cd_len then comment_data
        else if 0 < cp_len then praw_data
        else comment_data
      match merged with
      | none => Except.error ()
      | some l => Except.ok (some (sortByCreated l))
    else Except.ok comment_data
  match after_fallback with
  | Except.error e => Except.error e
  | Except.ok none => Except.ok []
  | Except.ok (some l) => Except.ok (if 0 < l.length then drop_duplicates_keep_last l else l)

/-- Iterated backoff value of the retry loops: the delay before the first
failed-attempt sleep is the configured `backoff`, and after each failed
attempt the source executes `backoff = 2 ** backoff` (`reddit.py` lines
628-629 and analogues), so the k-th sleep lasts `powIter b k` seconds. -/
def powIter (b : Nat) : Nat → Nat
  | 0 => b
  | k + 1 => 2 ^ powIter b k

/-- Backend correctness assumption for the capped time-windowed search: every
record of a successful response for the query window `[since, until)` has its
creation timestamp inside that window. -/
def Windowed (search : SearchFn) : Prop :=
  ∀ since til L k raw, search since til L k = some raw →
    ∀ r ∈ raw, since ≤ r.created_utc ∧ r.created_utc < til

/-- Adjacent pairs of a boundary list; equal to
`zip(time_chunks[:-1], time_chunks[1:])` (proved below) but shaped for
structural induction. -/
def zip_adjacent : List Int → List (Int × Int)
  | a :: b :: rest => (a, b) :: zip_adjacent (b :: rest)
  | _ => []

/-- Invariant of the retry loops' sleep trace: the recorded sleep durations
are exactly the iterates `powIter b0 0, powIter b0 1, ...` of the initial
backoff, and the pending backoff value is the next iterate. -/
def sleep_chain (b0 : Nat) (st : LoopState) : Prop :=
  st.backoff = powIter b0 st.sleeps.length ∧
  st.sleeps = (List.range st.sleeps.length).map (powIter b0)

/-- Ideal time-windowed backend over a fixed record universe: every request
succeeds and returns exactly the records whose creation timestamp falls in
the queried `[since, until)` window.  Used to exhibit concrete runs of the
fetch loop against a backend that perfectly respects query windows. -/
def window_search (rs : List Post) : SearchFn :=
  fun since til _ _ =>
    some (rs.filter (fun r => decide (since ≤ r.created_utc) && decide (r.created_utc < til)))

section Theorems

/-! Helper lemmas. -/

lemma toFinset_dedup_list (l : List Nat) : l.dedup.toFinset = l.toFinset := by
  ext a
  simp [List.mem_toFinset, List.mem_dedup]

lemma sorted_sortByCreated (l : List Post) : List.Sorted byCreated (sortByCreated l) :=
  List.sorted_insertionSort byCreated l

lemma perm_sortByCreated (l : List Post) : (sortByCreated l).Perm l :=
  List.perm_insertionSort byCreated l

lemma mem_sortByCreated {r : Post} {l : List Post} : r ∈ sortByCreated l ↔ r ∈ l :=
  (perm_sortByCreated l).mem_iff

/-! Chunker lemmas. -/

lemma chunk_go_of_ge (p : Nat) (e : Int) (fuel : Nat) (acc : List Int) (last : Int)
    (h : e ≤ last) : chunk_go p e fuel acc last = some acc := by
  cases fuel <;> simp [chunk_go, not_lt.mpr h]

lemma chunk_go_zero_none (e : Int) :
    ∀ (fuel : Nat) (acc : List Int) (last : Int), last < e → chunk_go 0 e fuel acc last = none := by
  intro fuel
  induction fuel with
  | zero => intro acc last h; simp [chunk_go, h]
  | succ f ih =>
    intro acc last h
    have hmin : min (last + ((0 : Nat) : Int)) e = last := by
      simp only [Nat.cast_zero, add_zero]
      exact min_eq_left (le_of_lt h)
    simp only [chunk_go, if_pos h, hmin]
    exact ih _ _ h

lemma chunk_go_spec (p : Nat) (e : Int) (hp : 0 < p) :
    ∀ (fuel : Nat) (last : Int) (acc : List Int), (e - last).toNat < fuel → last < e →
    ∃ ext, chunk_go p e fuel acc last = some (acc ++ ext) ∧
      List.Chain (fun a b => a < b ∧ b - a ≤ (p : Int)) last ext ∧
      ext ≠ [] ∧ ext.getLast? = some e := by
  intro fuel
  induction fuel with
  | zero => intro last acc hf hl; omega
  | succ f ih =>
    intro last acc hf hl
    by_cases hc : e ≤ last + (p : Int)
    · have hmin : min (last + (p : Int)) e = e := min_eq_right hc
      refine ⟨[e], ?_, ?_, by simp, by simp⟩
      · simp only [chunk_go, if_pos hl, hmin]
        exact chunk_go_of_ge p e f (acc ++ [e]) e le_rfl
      · exact List.Chain.cons ⟨hl, by omega⟩ List.Chain.nil
    · push_neg at hc
      have hmin : min (last + (p : Int)) e = last + (p : Int) := min_eq_left (le_of_lt hc)
      have hf' : (e - (last + (p : Int))).toNat < f := by omega
      obtain ⟨ext, heq, hchain, hne, hlast⟩ := ih (last + (p : Int)) (acc ++ [last + (p : Int)]) hf' hc
      refine ⟨(last + (p : Int)) :: ext, ?_, ?_, by simp, ?_⟩
      · simp only [chunk_go, if_pos hl, hmin, heq, List.append_assoc, List.singleton_append]
      · exact List.Chain.cons ⟨by omega, by omega⟩ hchain
      · obtain ⟨x, xs, rfl⟩ := List.exists_cons_of_ne_nil hne
        rw [List.getLast?_cons_cons]
        exact hlast

lemma chunk_timestamps_of_pos (s e : Int) (freq : String) (p : Nat)
    (hparse : parse_date_frequency freq = some p) (hp : 0 < p) (hse : s < e) :
    ∃ ext, chunk_timestamps s e (some freq) = some (s :: ext) ∧
      List.Chain (fun a b => a < b ∧ b - a ≤ (p : Int)) s ext ∧
      ext ≠ [] ∧ ext.getLast? = some e := by
  have hf : (e - s).toNat < (e - s).toNat + 1 := Nat.lt_succ_self _
  obtain ⟨ext, heq, hchain, hne, hlast⟩ := chunk_go_spec p e hp ((e - s).toNat + 1) s [s] hf hse
  exact ⟨ext, by simpa [chunk_timestamps, hparse] using heq, hchain, hne, hlast⟩

/-- C5 counterexample: the frequency string "0m" is valid for the parser
(`_parse_date_frequency` accepts it, yielding period 0), but on it the
chunker's `while` loop never advances, so `_chunk_timestamps(1000, 10000,
"0m")` never produces any boundary sequence: the embedded run reports fuel
exhaustion (`none`), and `chunk_go_zero_none` shows no fuel suffices. -/
theorem c5_counterexample :
    parse_date_frequency "0m" = some 0 ∧ chunk_timestamps 1000 10000 (some "0m") = none := by
  constructor
  · decide
  · have h := chunk_go_zero_none 10000 (((10000 : Int) - 1000).toNat + 1) [1000] 1000 (by omega)
    simpa [chunk_timestamps, show parse_date_frequency "0m" = some 0 from by decide] using h

/-- C5 (amended): for every pair of epochs with `start_epoch < end_epoch` and
every valid frequency string whose parsed period is positive, the boundary
sequence starts at `start_epoch`, ends at `end_epoch`, is strictly
increasing, and adjacent boundaries differ by at most the parsed period (for
a zero period — e.g. "0m" — the chunker loops forever and returns nothing);
chunking 1000..10000 with "50m" (3000 seconds) yields
`[1000, 4000, 7000, 10000]`, and with no frequency the result is
`[start_epoch, end_epoch]`. -/
theorem c5_chunker_bounds :
    (∀ (s e : Int) (freq : String) (p : Nat),
      parse_date_frequency freq = some p → 0 < p → s < e →
      ∃ tcs, chunk_timestamps s e (some freq) = some tcs ∧ tcs.head? = some s ∧
        tcs.getLast? = some e ∧ List.Chain' (· < ·) tcs ∧
        List.Chain' (fun a b => b - a ≤ (p : Int)) tcs) ∧
    chunk_timestamps 1000 10000 (some "50m") = some [1000, 4000, 7000, 10000] ∧
    (∀ s e : Int, chunk_timestamps s e none = some [s, e]) := by
  refine ⟨?_, by decide, fun s e => rfl⟩
  intro s e freq p hparse hp hse
  obtain ⟨ext, heq, hchain, hne, hlast⟩ := chunk_timestamps_of_pos s e freq p hparse hp hse
  refine ⟨s :: ext, heq, rfl, ?_, ?_, ?_⟩
  · obtain ⟨x, xs, rfl⟩ := List.exists_cons_of_ne_nil hne
    rw [List.getLast?_cons_cons]
    exact hlast
  · exact hchain.imp (fun a b h => h.1)
  · exact hchain.imp (fun a b h => h.2)

/-- C5 witness: the general clause of `c5_chunker_bounds` applied at
`s = 0`, `e = 100`, frequency "1m" (period 60). -/
theorem c5_witness :
    ∃ tcs, chunk_timestamps 0 100 (some "1m") = some tcs ∧ tcs.head? = some 0 ∧
      tcs.getLast? = some 100 ∧ List.Chain' (· < ·) tcs ∧
      List.Chain' (fun a b => b - a ≤ ((60 : Nat) : Int)) tcs :=
  c5_chunker_bounds.1 0 100 "1m" 60 (by decide) (by decide) (by decide)

/-- C6 counterexample: with `start_epoch = end_epoch = 1000` and the valid
frequency string "1m", `_chunk_timestamps` returns the one-element `[1000]`
(the while loop body never runs), not the claimed two-element `[1000, 1000]`. -/
theorem c6_counterexample :
    chunk_timestamps 1000 1000 (some "1m") = some [1000] ∧
    ([1000] : List Int) ≠ [1000, 1000] := by
  constructor <;> decide

/-- C6 (amended): with `start_epoch = end_epoch = t` the chunker returns the
two-element `[t, t]` only when no frequency is given — and the callers then
iterate one degenerate sub-interval `(t, t)`, not zero; with any valid
frequency string it returns the single-element `[t]`, which yields zero
sub-intervals to iterate. -/
theorem c6_equal_epochs (t : Int) :
    (chunk_timestamps t t none = some [t, t] ∧
      ([t, t] : List Int).dropLast.zip ([t, t] : List Int).tail = [(t, t)]) ∧
    (∀ (freq : String) (p : Nat), parse_date_frequency freq = some p →
      chunk_timestamps t t (some freq) = some [t] ∧
      ([t] : List Int).dropLast.zip ([t] : List Int).tail = []) := by
  refine ⟨⟨rfl, rfl⟩, fun freq p hparse => ⟨?_, rfl⟩⟩
  simp [chunk_timestamps, hparse, chunk_go]

/-- C6 witness: `c6_equal_epochs` applied at `t = 5` with frequency "1m". -/
theorem c6_witness :
    chunk_timestamps 5 5 (some "1m") = some [5] ∧
    ([5] : List Int).dropLast.zip ([5] : List Int).tail = [] :=
  (c6_equal_epochs 5).2 "1m" 60 (by decide)

/-! Discovery lemmas: the recursion threads the shared accumulator through
both halves of every split, so its identifier set is the initial accumulator
set united with the set discovered from the empty accumulator. -/

lemma discover_aux_acc (b : IdBackend) :
    ∀ (fuel : Nat) (s e : Int) (acc : List Nat),
      (discover_aux b fuel s e acc).toFinset =
        acc.toFinset ∪ (discover_aux b fuel s e []).toFinset := by
  intro fuel
  induction fuel with
  | zero => intro s e acc; simp [discover_aux]
  | succ f ih =>
    intro s e acc
    by_cases h : (b s e).length < 100
    · simp [discover_aux, h, List.toFinset_append]
    · simp only [discover_aux, if_neg h]
      rw [ih (midpoint s e) e (discover_aux b f s (midpoint s e) acc),
        ih s (midpoint s e) acc,
        ih (midpoint s e) e (discover_aux b f s (midpoint s e) [])]
      ext a
      simp only [Finset.mem_union, List.toFinset_nil, Finset.not_mem_empty]
      tauto

lemma discover_aux_rev_acc (b : IdBackend) :
    ∀ (fuel : Nat) (s e : Int) (acc : List Nat),
      (discover_aux_rev b fuel s e acc).toFinset =
        acc.toFinset ∪ (discover_aux_rev b fuel s e []).toFinset := by
  intro fuel
  induction fuel with
  | zero => intro s e acc; simp [discover_aux_rev]
  | succ f ih =>
    intro s e acc
    by_cases h : (b s e).length < 100
    · simp [discover_aux_rev, h, List.toFinset_append]
    · simp only [discover_aux_rev, if_neg h]
      rw [ih s (midpoint s e) (discover_aux_rev b f (midpoint s e) e acc),
        ih (midpoint s e) e acc,
        ih s (midpoint s e) (discover_aux_rev b f (midpoint s e) e [])]
      ext a
      simp only [Finset.mem_union, List.toFinset_nil, Finset.not_mem_empty]
      tauto

lemma discover_aux_rev_toFinset (b : IdBackend) :
    ∀ (fuel : Nat) (s e : Int) (acc : List Nat),
      (discover_aux_rev b fuel s e acc).toFinset = (discover_aux b fuel s e acc).toFinset := by
  intro fuel
  induction fuel with
  | zero => intro s e acc; rfl
  | succ f ih =>
    intro s e acc
    by_cases h : (b s e).length < 100
    · simp [discover_aux, discover_aux_rev, h]
    · simp only [discover_aux, discover_aux_rev, if_neg h]
      rw [discover_aux_rev_acc b f s (midpoint s e), ih (midpoint s e) e acc,
        ih s (midpoint s e) [], discover_aux_acc b f (midpoint s e) e acc,
        discover_aux_acc b f (midpoint s e) e (discover_aux b f s (midpoint s e) acc),
        discover_aux_acc b f s (midpoint s e) acc]
      ext a
      simp only [Finset.mem_union]
      tauto

/-- C2: with a fixed, always-successful ID backend, the recursive comment-ID
discovery is deterministic in its output set: a second run on the same input
(sharing the first run's accumulator, as the Python mutable default argument
does) returns exactly the first run's identifier set, and traversing the two
halves of every binary split in the opposite order yields the same set. -/
theorem c2_discovery_deterministic (b : IdBackend) (fuel : Nat) (s e : Int) :
    (retrieve_submission_comment_ids b fuel s e (discover_aux b fuel s e [])).toFinset =
      (retrieve_submission_comment_ids b fuel s e []).toFinset ∧
    (discover_aux_rev b fuel s e []).toFinset = (discover_aux b fuel s e []).toFinset := by
  constructor
  · rw [retrieve_submission_comment_ids, retrieve_submission_comment_ids,
      toFinset_dedup_list, toFinset_dedup_list,
      discover_aux_acc b fuel s e (discover_aux b fuel s e [])]
    exact Finset.union_self _
  · exact discover_aux_rev_toFinset b fuel s e []

/-- C3: the result of the top-level discovery is duplicate-free, and each
recursion step behaves as claimed: a successful request over `[s, e]`
returning fewer than 100 identifiers merges them into the accumulator with
no split, while a request returning 100 (or more) splits the range at
`midpoint s e` and the resulting identifier set is the union of the
accumulator's set and the sets discovered independently over
`[s, midpoint s e]` and `[midpoint s e, e]`. -/
theorem c3_split_semantics (b : IdBackend) (fuel : Nat) (s e : Int) (acc : List Nat) :
    (retrieve_submission_comment_ids b fuel s e acc).Nodup ∧
    (discover_aux b (fuel + 1) s e acc).toFinset =
      (if (b s e).length < 100 then (acc ++ b s e).toFinset
       else acc.toFinset ∪ (discover_aux b fuel s (midpoint s e) []).toFinset ∪
         (discover_aux b fuel (midpoint s e) e []).toFinset) := by
  refine ⟨List.nodup_dedup _, ?_⟩
  by_cases h : (b s e).length < 100
  · simp [discover_aux, h]
  · simp only [discover_aux, if_neg h]
    rw [discover_aux_acc b fuel (midpoint s e) e (discover_aux b fuel s (midpoint s e) acc),
      discover_aux_acc b fuel s (midpoint s e) acc]

/-- C8: on the same instance, a second top-level discovery that starts from
the shared mutable accumulator left by a first call returns a superset (as a
set of identifiers) of the first call's result, regardless of the backend,
fuel, submissions or date range the second call targets. -/
theorem c8_mutable_default_accumulator (b1 b2 : IdBackend) (f1 f2 : Nat)
    (s1 e1 s2 e2 : Int) :
    (retrieve_submission_comment_ids b1 f1 s1 e1 []).toFinset ⊆
      (retrieve_submission_comment_ids b2 f2 s2 e2 (discover_aux b1 f1 s1 e1 [])).toFinset := by
  rw [retrieve_submission_comment_ids, retrieve_submission_comment_ids,
    toFinset_dedup_list, toFinset_dedup_list,
    discover_aux_acc b2 f2 s2 e2 (discover_aux b1 f1 s1 e1 [])]
  exact Finset.subset_union_left

/-! Retry-loop lemmas. -/

lemma parse_comment_perm (rs : List Post) : (parse_pmaw_comment_request rs).Perm rs := by
  rw [parse_pmaw_comment_request]
  split
  · exact perm_sortByCreated rs
  · exact List.Perm.refl rs

lemma parse_submission_perm (rs : List Post) : (parse_pmaw_submission_request rs).Perm rs := by
  rw [parse_pmaw_submission_request]
  split
  · exact perm_sortByCreated rs
  · exact List.Perm.refl rs

lemma run_attempts_shape (parse : List Post → List Post) (search : SearchFn) (a b : Int)
    (lim : Option Nat) :
    ∀ (fuel k : Nat) (st : LoopState),
      ((run_attempts parse search a b lim fuel k st).dfs = st.dfs ∧
        (run_attempts parse search a b lim fuel k st).total = st.total) ∨
      ∃ k' raw, search a (b + 1) (req_limit lim) k' = some raw ∧ 0 < (parse raw).length ∧
        (run_attempts parse search a b lim fuel k st).dfs = st.dfs ++ [sortByCreated (parse raw)] ∧
        (run_attempts parse search a b lim fuel k st).total =
          st.total + (sortByCreated (parse raw)).length := by
  intro fuel
  induction fuel with
  | zero => intro k st; exact Or.inl ⟨rfl, rfl⟩
  | succ f ih =>
    intro k st
    cases h : search a (b + 1) (req_limit lim) k with
    | some raw =>
      by_cases hlen : 0 < (parse raw).length
      · refine Or.inr ⟨k, raw, h, hlen, ?_, ?_⟩ <;> simp [run_attempts, h, hlen]
      · refine Or.inl ⟨?_, ?_⟩ <;> simp [run_attempts, h, hlen]
    | none =>
      have := ih (k + 1)
        { st with sleeps := st.sleeps ++ [st.backoff], backoff := 2 ^ st.backoff }
      simpa [run_attempts, h] using this

lemma run_attempts_sleeps_le (parse : List Post → List Post) (search : SearchFn) (a b : Int)
    (lim : Option Nat) :
    ∀ (fuel k : Nat) (st : LoopState),
      (run_attempts parse search a b lim fuel k st).sleeps.length ≤ st.sleeps.length + fuel := by
  intro fuel
  induction fuel with
  | zero => intro k st; exact Nat.le_refl _
  | succ f ih =>
    intro k st
    cases h : search a (b + 1) (req_limit lim) k with
    | some raw =>
      by_cases hlen : 0 < (parse raw).length <;> simp [run_attempts, h, hlen]
    | none =>
      have := ih (k + 1)
        { st with sleeps := st.sleeps ++ [st.backoff], backoff := 2 ^ st.backoff }
      simp only [run_attempts, h] at this ⊢
      simp only [List.length_append, List.length_singleton] at this
      omega

lemma run_attempts_sleep_chain (parse : List Post → List Post) (search : SearchFn) (a b : Int)
    (lim : Option Nat) (b0 : Nat) :
    ∀ (fuel k : Nat) (st : LoopState), sleep_chain b0 st →
      sleep_chain b0 (run_attempts parse search a b lim fuel k st) := by
  intro fuel
  induction fuel with
  | zero => intro k st h; exact h
  | succ f ih =>
    intro k st hst
    cases h : search a (b + 1) (req_limit lim) k with
    | some raw =>
      by_cases hlen : 0 < (parse raw).length <;>
        simpa [run_attempts, h, hlen, sleep_chain] using hst
    | none =>
      have hnext : sleep_chain b0
          { st with sleeps := st.sleeps ++ [st.backoff], backoff := 2 ^ st.backoff } := by
        obtain ⟨hb, hs⟩ := hst
        constructor
        · simp only [List.length_append, List.length_singleton, hb]
          rfl
        · simp only [List.length_append, List.length_singleton]
          rw [List.range_succ, List.map_append]
          simp only [List.map_cons, List.map_nil]
          rw [← hs, hb]
      have := ih (k + 1) _ hnext
      simpa [run_attempts, h] using this

lemma run_attempts_all_fail (parse : List Post → List Post) (search : SearchFn) (a b : Int)
    (lim : Option Nat) (fuel k : Nat) (st : LoopState)
    (hfail : ∀ L k', search a (b + 1) L k' = none) :
    (run_attempts parse search a b lim fuel k st).dfs = st.dfs ∧
      (run_attempts parse search a b lim fuel k st).total = st.total := by
  rcases run_attempts_shape parse search a b lim fuel k st with h | ⟨k', raw, hreq, _, _, _⟩
  · exact h
  · rw [hfail (req_limit lim) k'] at hreq
    exact absurd hreq (by simp)

lemma run_attempts_empty_responses (parse : List Post → List Post) (search : SearchFn)
    (a b : Int) (lim : Option Nat) (fuel k : Nat) (st : LoopState)
    (hempty : ∀ x y L k' raw, search x y L k' = some raw → parse raw = []) :
    (run_attempts parse search a b lim fuel k st).dfs = st.dfs ∧
      (run_attempts parse search a b lim fuel k st).total = st.total := by
  rcases run_attempts_shape parse search a b lim fuel k st with h | ⟨k', raw, hreq, hlen, _, _⟩
  · exact h
  · rw [hempty a (b + 1) (req_limit lim) k' raw hreq] at hlen
    exact absurd hlen (by simp)

lemma chunk_loop_empty_responses (parse : List Post → List Post) (search : SearchFn)
    (lim : Option Nat) (retries : Nat)
    (hempty : ∀ x y L k' raw, search x y L k' = some raw → parse raw = []) :
    ∀ (pairs : List (Int × Int)) (st : LoopState),
      (chunk_loop parse search lim retries pairs st).dfs = st.dfs ∧
        (chunk_loop parse search lim retries pairs st).total = st.total := by
  intro pairs
  induction pairs with
  | nil => intro st; exact ⟨rfl, rfl⟩
  | cons hd rest ih =>
    intro st
    obtain ⟨a, b⟩ := hd
    by_cases hl : limit_reached lim st.total
    · simp [chunk_loop, hl]
    · obtain ⟨hdfs, htot⟩ :=
        run_attempts_empty_responses parse search a b lim retries 0 st hempty
      obtain ⟨ihd, iht⟩ := ih (run_attempts parse search a b lim retries 0 st)
      simp only [chunk_loop, hl, if_neg, Bool.false_eq_true, ite_false]
      exact ⟨by rw [ihd, hdfs], by rw [iht, htot]⟩

lemma chunk_loop_sleep_chain (parse : List Post → List Post) (search : SearchFn)
    (lim : Option Nat) (retries : Nat) (b0 : Nat) :
    ∀ (pairs : List (Int × Int)) (st : LoopState), sleep_chain b0 st →
      sleep_chain b0 (chunk_loop parse search lim retries pairs st) := by
  intro pairs
  induction pairs with
  | nil => intro st h; exact h
  | cons hd rest ih =>
    intro st hst
    obtain ⟨a, b⟩ := hd
    by_cases hl : limit_reached lim st.total
    · simpa [chunk_loop, hl] using hst
    · simp only [chunk_loop, hl, Bool.false_eq_true, ite_false]
      exact ih _ (run_attempts_sleep_chain parse search a b lim b0 retries 0 st hst)

/-! Sortedness of the aggregated result. -/

lemma dropLast_zip_tail : ∀ l : List Int, l.dropLast.zip l.tail = zip_adjacent l
  | [] => rfl
  | [_] => rfl
  | a :: b :: rest => by
    have ih := dropLast_zip_tail (b :: rest)
    simp only [zip_adjacent, ← ih]
    rcases rest with _ | ⟨x, xs⟩
    · rfl
    · rfl

lemma chunk_timestamps_shape (s e : Int) (cs : Option String) (tcs : List Int)
    (h : chunk_timestamps s e cs = some tcs) :
    ∃ c rest, tcs = c :: rest ∧ List.Chain' (· ≤ ·) rest := by
  cases cs with
  | none =>
    simp only [chunk_timestamps, Option.some_inj] at h
    exact ⟨s, [e], h.symm, List.chain'_singleton e⟩
  | some freq =>
    cases hp : parse_date_frequency freq with
    | none => simp [chunk_timestamps, hp] at h
    | some p =>
      simp only [chunk_timestamps, hp] at h
      by_cases hse : s < e
      · cases Nat.eq_zero_or_pos p with
        | inl h0 =>
          rw [h0, chunk_go_zero_none e _ _ _ hse] at h
          exact absurd h (by simp)
        | inr hpos =>
          obtain ⟨ext, heq, hchain, hne, hlast⟩ :=
            chunk_go_spec p e hpos ((e - s).toNat + 1) s [s] (Nat.lt_succ_self _) hse
          rw [heq] at h
          refine ⟨s, ext, by simpa using h.symm, ?_⟩
          have : List.Chain' (· ≤ ·) (s :: ext) :=
            (hchain.imp fun x y hxy => le_of_lt hxy.1 : List.Chain (· ≤ ·) s ext)
          exact this.tail
      · rw [chunk_go_of_ge p e _ [s] s (not_lt.mp hse)] at h
        exact ⟨s, [], by simpa using h.symm, List.chain'_nil⟩

lemma chunk_loop_sorted (parse : List Post → List Post)
    (hparse : ∀ raw, (parse raw).Perm raw) (search : SearchFn) (hw : Windowed search)
    (lim : Option Nat) (retries : Nat) :
    ∀ (tcs : List Int) (c : Int) (st : LoopState),
      List.Sorted byCreated st.dfs.flatten →
      ((st.dfs.flatten = [] ∧ List.Chain' (· ≤ ·) tcs) ∨
        ((∀ r ∈ st.dfs.flatten, r.created_utc ≤ c) ∧ List.Chain' (· ≤ ·) (c :: tcs))) →
      List.Sorted byCreated
        ((chunk_loop parse search lim retries (zip_adjacent (c :: tcs)) st).dfs.flatten) := by
  intro tcs
  induction tcs with
  | nil =>
    intro c st hsort _
    simpa [zip_adjacent, chunk_loop] using hsort
  | cons b rest ih =>
    intro c st hsort hinv
    show List.Sorted byCreated
      ((chunk_loop parse search lim retries ((c, b) :: zip_adjacent (b :: rest)) st).dfs.flatten)
    by_cases hl : limit_reached lim st.total
    · simpa [chunk_loop, hl] using hsort
    · simp only [chunk_loop, hl, Bool.false_eq_true, ite_false]
      set st1 := run_attempts parse search c b lim retries 0 st with hst1
      have hbound : ∀ raw k', search c (b + 1) (req_limit lim) k' = some raw →
          ∀ r ∈ raw, c ≤ r.created_utc ∧ r.created_utc ≤ b := by
        intro raw k' hreq r hr
        obtain ⟨h1, h2⟩ := hw c (b + 1) (req_limit lim) k' raw hreq r hr
        exact ⟨h1, by omega⟩
      rcases run_attempts_shape parse search c b lim retries 0 st with
        ⟨hdfs, _⟩ | ⟨k', raw, hreq, _, hdfs, _⟩
      · -- the sub-interval contributed nothing
        apply ih b st1
        · rw [hst1, hdfs]; exact hsort
        · rcases hinv with ⟨hemp, hch⟩ | ⟨hb, hch⟩
          · exact Or.inl ⟨by rw [hst1, hdfs]; exact hemp, hch.tail⟩
          · have hcb : c ≤ b := (List.chain'_cons.mp hch).1
            refine Or.inr ⟨?_, (List.chain'_cons.mp hch).2⟩
            rw [hst1, hdfs]
            exact fun r hr => le_trans (hb r hr) hcb
      · -- the sub-interval appended one sorted frame
        have hmemraw : ∀ r ∈ sortByCreated (parse raw), c ≤ r.created_utc ∧ r.created_utc ≤ b := by
          intro r hr
          exact hbound raw k' hreq r ((hparse raw).mem_iff.mp (mem_sortByCreated.mp hr))
        have hflat : st1.dfs.flatten = st.dfs.flatten ++ sortByCreated (parse raw) := by
          rw [hst1, hdfs, List.flatten_append]
          simp
        have holdle : ∀ r ∈ st.dfs.flatten, r.created_utc ≤ c := by
          rcases hinv with ⟨hemp, _⟩ | ⟨hb, _⟩
          · rw [hemp]; exact fun r hr => absurd hr (List.not_mem_nil r)
          · exact hb
        have hsort1 : List.Sorted byCreated st1.dfs.flatten := by
          rw [hflat]
          rw [List.Sorted, List.pairwise_append]
          refine ⟨hsort, sorted_sortByCreated _, ?_⟩
          intro r1 hr1 r2 hr2
          exact le_trans (holdle r1 hr1) (hmemraw r2 hr2).1
        apply ih b st1 hsort1
        refine Or.inr ⟨?_, ?_⟩
        · intro r hr
          rw [hflat] at hr
          rcases List.mem_append.mp hr with hr | hr
          · rcases hinv with ⟨hemp, _⟩ | ⟨hb, hch⟩
            · rw [hemp] at hr; exact absurd hr (List.not_mem_nil r)
            · exact le_trans (hb r hr) (List.chain'_cons.mp hch).1
          · exact (hmemraw r hr).2
        · rcases hinv with ⟨_, hch⟩ | ⟨_, hch⟩
          · exact hch
          · exact (List.chain'_cons.mp hch).2

lemma sorted_truncate (lim : Option Nat) (l : List Post) (h : List.Sorted byCreated l) :
    List.Sorted byCreated (truncate_limit lim l) := by
  cases lim with
  | none => exact h
  | some m =>
    rw [truncate_limit]
    split
    · exact List.Pairwise.sublist (List.take_sublist m l) h
    · exact h

lemma window_search_windowed (rs : List Post) : Windowed (window_search rs) := by
  intro since til L k raw h r hr
  simp only [window_search, Option.some_inj] at h
  rw [← h] at hr
  have hm := List.mem_filter.mp hr
  have hb : decide (since ≤ r.created_utc) = true ∧ decide (r.created_utc < til) = true := by
    have := hm.2
    simp only [Bool.and_eq_true] at this
    exact this
  exact ⟨of_decide_eq_true hb.1, of_decide_eq_true hb.2⟩

lemma fetch_paginated_sorted (parse : List Post → List Post)
    (hparse : ∀ raw, (parse raw).Perm raw) (search : SearchFn) (hw : Windowed search)
    (s e : Int) (cs : Option String) (lim : Option Nat) (retries b0 : Nat)
    (res : List Post) (sl : List Nat)
    (h : fetch_paginated parse search s e cs lim retries b0 = Except.ok (some res, sl)) :
    List.Sorted byCreated res := by
  rcases hc : chunk_timestamps s e cs with _ | tcs
  · simp [fetch_paginated, hc] at h
  · simp only [fetch_paginated, hc] at h
    obtain ⟨c, rest, htcs, hchain⟩ := chunk_timestamps_shape s e cs tcs hc
    by_cases hz :
        (chunk_loop parse search lim retries (tcs.dropLast.zip tcs.tail) ⟨b0, [], 0, []⟩).dfs.length = 0
    · rw [if_pos hz] at h
      simp at h
    · rw [if_neg hz] at h
      have hres : res =
          truncate_limit lim
            (chunk_loop parse search lim retries (tcs.dropLast.zip tcs.tail)
              ⟨b0, [], 0, []⟩).dfs.flatten := by
        have := congrArg (fun x : Option (List Post) × List Nat => x.1) (Except.ok.inj h)
        simpa using this.symm
      have hsorted : List.Sorted byCreated
          ((chunk_loop parse search lim retries (tcs.dropLast.zip tcs.tail)
            ⟨b0, [], 0, []⟩).dfs.flatten) := by
        rw [dropLast_zip_tail, htcs]
        exact chunk_loop_sorted parse hparse search hw lim retries rest c ⟨b0, [], 0, []⟩
          (by simp) (Or.inl ⟨by simp, hchain⟩)
      rw [hres]
      exact sorted_truncate lim _ hsorted

lemma fetch_paginated_sleep_chain (parse : List Post → List Post) (search : SearchFn)
    (s e : Int) (cs : Option String) (lim : Option Nat) (retries b0 : Nat)
    (r : Option (List Post)) (sl : List Nat)
    (h : fetch_paginated parse search s e cs lim retries b0 = Except.ok (r, sl)) :
    ∃ n, sl = (List.range n).map (powIter b0) := by
  rcases hc : chunk_timestamps s e cs with _ | tcs
  · simp [fetch_paginated, hc] at h
  · simp only [fetch_paginated, hc] at h
    have hinit : sleep_chain b0 (⟨b0, [], 0, []⟩ : LoopState) := ⟨rfl, rfl⟩
    have hfinal := chunk_loop_sleep_chain parse search lim retries b0
      (tcs.dropLast.zip tcs.tail) ⟨b0, [], 0, []⟩ hinit
    set st := chunk_loop parse search lim retries (tcs.dropLast.zip tcs.tail) ⟨b0, [], 0, []⟩
    have hsl : sl = st.sleeps := by
      by_cases hz : st.dfs.length = 0
      · rw [if_pos hz] at h
        have := congrArg (fun x : Option (List Post) × List Nat => x.2) (Except.ok.inj h)
        simpa using this.symm
      · rw [if_neg hz] at h
        have := congrArg (fun x : Option (List Post) × List Nat => x.2) (Except.ok.inj h)
        simpa using this.symm
    exact ⟨st.sleeps.length, by rw [hsl]; exact hfinal.2⟩

lemma fetch_paginated_ok (parse : List Post → List Post) (search : SearchFn)
    (s e : Int) (cs : Option String) (lim : Option Nat) (retries b0 : Nat)
    (tcs : List Int) (hc : chunk_timestamps s e cs = some tcs) :
    ∃ out, fetch_paginated parse search s e cs lim retries b0 = Except.ok out := by
  simp only [fetch_paginated, hc]
  by_cases hz :
      (chunk_loop parse search lim retries (tcs.dropLast.zip tcs.tail) ⟨b0, [], 0, []⟩).dfs.length = 0
  · exact ⟨_, by rw [if_pos hz]⟩
  · exact ⟨_, by rw [if_neg hz]⟩

lemma fetch_paginated_empty (parse : List Post → List Post) (search : SearchFn)
    (s e : Int) (cs : Option String) (lim : Option Nat) (retries b0 : Nat)
    (tcs : List Int) (hc : chunk_timestamps s e cs = some tcs)
    (hempty : ∀ x y L k' raw, search x y L k' = some raw → parse raw = []) :
    ∃ sl, fetch_paginated parse search s e cs lim retries b0 = Except.ok (none, sl) := by
  simp only [fetch_paginated, hc]
  have hdfs := (chunk_loop_empty_responses parse search lim retries hempty
    (tcs.dropLast.zip tcs.tail) ⟨b0, [], 0, []⟩).1
  have hz :
      (chunk_loop parse search lim retries (tcs.dropLast.zip tcs.tail) ⟨b0, [], 0, []⟩).dfs.length = 0 := by
    rw [hdfs]
    rfl
  exact ⟨_, by rw [if_pos hz]⟩

/-- C1 counterexample: against an ideal backend that perfectly respects query
windows (one record, timestamp 60, universe fixed), chunking 0..120 with
frequency "1m" produces boundaries `[0, 60, 120]`; the two sub-interval
queries use the overlapping windows `[0, 61)` and `[60, 121)` (`since=tcstart,
until=tcstop+1`), so the record timestamped exactly at the interior boundary
60 is returned by both, and `retrieve_author_comments` — which has no
deduplication step — returns it twice: the identifier "a" repeats. -/
theorem c1_counterexample :
    Windowed (window_search [⟨"a", 60, ""⟩]) ∧
    retrieve_author_comments (window_search [⟨"a", 60, ""⟩]) 0 120 (some "1m") (some 100) 3 2 =
      Except.ok (some [⟨"a", 60, ""⟩, ⟨"a", 60, ""⟩], []) ∧
    ¬ (([⟨"a", 60, ""⟩, ⟨"a", 60, ""⟩] : List Post).map Post.id).Nodup :=
  ⟨window_search_windowed _, by rfl, by decide⟩

/-- C1 (amended): for every result set returned by the fetch-with-retry
operations against a backend whose successful responses respect their query
windows, the records are sorted non-decreasing by `created_utc`; identifier
uniqueness does NOT hold — these three operations have no deduplication step,
and a record timestamped exactly at an interior chunk boundary is returned by
both adjacent sub-interval queries. -/
theorem c1_results_sorted :
    (∀ (search : SearchFn) (s e : Int) (cs : Option String) (lim : Option Nat)
      (retries b0 : Nat) (res : List Post) (sl : List Nat), Windowed search →
      retrieve_subreddit_submissions search s e cs lim retries b0 = Except.ok (some res, sl) →
      List.Sorted byCreated res) ∧
    (∀ (search : SearchFn) (s e : Int) (cs : Option String) (lim : Option Nat)
      (retries b0 : Nat) (res : List Post) (sl : List Nat), Windowed search →
      retrieve_author_comments search s e cs lim retries b0 = Except.ok (some res, sl) →
      List.Sorted byCreated res) ∧
    (∀ (search : SearchFn) (s e : Int) (cs : Option String) (lim : Option Nat)
      (retries b0 : Nat) (res : List Post) (sl : List Nat), Windowed search →
      retrieve_author_submissions search s e cs lim retries b0 = Except.ok (some res, sl) →
      List.Sorted byCreated res) := by
  refine ⟨fun search s e cs lim retries b0 res sl hw h => ?_,
    fun search s e cs lim retries b0 res sl hw h => ?_,
    fun search s e cs lim retries b0 res sl hw h => ?_⟩
  · exact fetch_paginated_sorted parse_pmaw_submission_request parse_submission_perm
      search hw s e cs lim retries b0 res sl h
  · exact fetch_paginated_sorted parse_pmaw_comment_request parse_comment_perm
      search hw s e cs lim retries b0 res sl h
  · exact fetch_paginated_sorted parse_pmaw_submission_request parse_submission_perm
      search hw s e cs lim retries b0 res sl h

/-- C1 witness: the `retrieve_author_comments` clause of `c1_results_sorted`
applied to the ideal windowed backend over a one-record universe. -/
theorem c1_witness : List.Sorted byCreated [⟨"a", 60, ""⟩] :=
  c1_results_sorted.2.1 (window_search [⟨"a", 60, ""⟩]) 0 120 none (some 100) 3 2
    [⟨"a", 60, ""⟩] [] (window_search_windowed _) (by rfl)

/-- C4 counterexample: with configured backoff 3 and a backend that always
fails, the two failed attempts sleep 3 and then `2 ** 3 = 8` seconds — not
the doubled 6 seconds the claim predicts — because the source updates
`backoff = 2 ** backoff`, not `backoff = 2 * backoff`. -/
theorem c4_counterexample :
    retrieve_author_comments (fun _ _ _ _ => none) 0 60 none (some 100) 2 3 =
      Except.ok (none, [3, 8]) ∧ ([3, 8] : List Nat) ≠ [3, 2 * 3] :=
  ⟨by rfl, by decide⟩

/-- C4 (amended): in the paginated fetch-with-retry operations, when a
backend call fails the operation sleeps before the next attempt; the delay
starts at the configured backoff value and after each failed attempt is
replaced by 2 raised to the current delay (`backoff = 2 ** backoff`, not
doubling; the value also carries over across sub-intervals instead of
resetting), so the k-th sleep of a call lasts `powIter backoff k` seconds;
at most `max_retries` attempts (hence sleeps) are made per sub-interval; a
sub-interval whose every attempt fails contributes nothing to the cached
frames or the running total, leaving the aggregate built from other
sub-intervals intact; and whenever the chunker succeeds the operation
returns normally rather than raising. -/
theorem c4_backoff_schedule :
    (∀ (search : SearchFn) (s e : Int) (cs : Option String) (lim : Option Nat)
      (retries b0 : Nat) (r : Option (List Post)) (sl : List Nat),
      (retrieve_subreddit_submissions search s e cs lim retries b0 = Except.ok (r, sl) ∨
        retrieve_author_comments search s e cs lim retries b0 = Except.ok (r, sl) ∨
        retrieve_author_submissions search s e cs lim retries b0 = Except.ok (r, sl)) →
      ∃ n, sl = (List.range n).map (powIter b0)) ∧
    (∀ (parse : List Post → List Post) (search : SearchFn) (a b : Int) (lim : Option Nat)
      (retries k : Nat) (st : LoopState),
      (run_attempts parse search a b lim retries k st).sleeps.length ≤
        st.sleeps.length + retries) ∧
    (∀ (parse : List Post → List Post) (search : SearchFn) (a b : Int) (lim : Option Nat)
      (retries k : Nat) (st : LoopState), (∀ L k', search a (b + 1) L k' = none) →
      (run_attempts parse search a b lim retries k st).dfs = st.dfs ∧
        (run_attempts parse search a b lim retries k st).total = st.total) ∧
    (∀ (search : SearchFn) (s e : Int) (cs : Option String) (lim : Option Nat)
      (retries b0 : Nat) (tcs : List Int), chunk_timestamps s e cs = some tcs →
      (∃ o, retrieve_subreddit_submissions search s e cs lim retries b0 = Except.ok o) ∧
      (∃ o, retrieve_author_comments search s e cs lim retries b0 = Except.ok o) ∧
      (∃ o, retrieve_author_submissions search s e cs lim retries b0 = Except.ok o)) := by
  refine ⟨?_, ?_, ?_, ?_⟩
  · intro search s e cs lim retries b0 r sl h
    rcases h with h | h | h
    · exact fetch_paginated_sleep_chain parse_pmaw_submission_request search s e cs lim retries b0 r sl h
    · exact fetch_paginated_sleep_chain parse_pmaw_comment_request search s e cs lim retries b0 r sl h
    · exact fetch_paginated_sleep_chain parse_pmaw_submission_request search s e cs lim retries b0 r sl h
  · intro parse search a b lim retries k st
    exact run_attempts_sleeps_le parse search a b lim retries k st
  · intro parse search a b lim retries k st hfail
    exact run_attempts_all_fail parse search a b lim retries k st hfail
  · intro search s e cs lim retries b0 tcs hc
    exact ⟨fetch_paginated_ok parse_pmaw_submission_request search s e cs lim retries b0 tcs hc,
      fetch_paginated_ok parse_pmaw_comment_request search s e cs lim retries b0 tcs hc,
      fetch_paginated_ok parse_pmaw_submission_request search s e cs lim retries b0 tcs hc⟩

/-- C4 witness: `c4_backoff_schedule` applied to an always-failing backend
with backoff 3 and 2 retries over the single sub-interval 0..60. -/
theorem c4_witness :
    (∃ n, ([3, 8] : List Nat) = (List.range n).map (powIter 3)) ∧
    ((run_attempts parse_pmaw_comment_request (fun _ _ _ _ => none) 0 60 (some 100) 2 0
        ⟨3, [], 0, []⟩).dfs = ([] : List (List Post)) ∧
      (run_attempts parse_pmaw_comment_request (fun _ _ _ _ => none) 0 60 (some 100) 2 0
        ⟨3, [], 0, []⟩).total = 0) ∧
    (∃ o, retrieve_author_comments (fun _ _ _ _ => none) 0 60 none (some 100) 2 3 = Except.ok o) := by
  obtain ⟨h1, _, h3, h4⟩ := c4_backoff_schedule
  refine ⟨?_, ?_, ?_⟩
  · exact h1 (fun _ _ _ _ => none) 0 60 none (some 100) 2 3 none [3, 8] (Or.inr (Or.inl (by rfl)))
  · exact h3 parse_pmaw_comment_request (fun _ _ _ _ => none) 0 60 (some 100) 2 0
      ⟨3, [], 0, []⟩ (fun L k' => rfl)
  · exact (h4 (fun _ _ _ _ => none) 0 60 none (some 100) 2 3 [0, 60] (by rfl)).2.1

/-- C9: when every backend response across every sub-interval is a failure or
an empty record list, each of the three paginated retrieval operations
returns Python `None` (embedded `none`) rather than an empty table. -/
theorem c9_none_on_no_records (search : SearchFn) (s e : Int) (cs : Option String)
    (lim : Option Nat) (retries b0 : Nat) (tcs : List Int)
    (hc : chunk_timestamps s e cs = some tcs)
    (hraw : ∀ x y L k raw, search x y L k = some raw → raw = []) :
    (∃ sl, retrieve_subreddit_submissions search s e cs lim retries b0 = Except.ok (none, sl)) ∧
    (∃ sl, retrieve_author_comments search s e cs lim retries b0 = Except.ok (none, sl)) ∧
    (∃ sl, retrieve_author_submissions search s e cs lim retries b0 = Except.ok (none, sl)) := by
  have hsub : ∀ x y L k raw, search x y L k = some raw →
      parse_pmaw_submission_request raw = [] := by
    intro x y L k raw h
    rw [hraw x y L k raw h]
    rfl
  have hcom : ∀ x y L k raw, search x y L k = some raw →
      parse_pmaw_comment_request raw = [] := by
    intro x y L k raw h
    rw [hraw x y L k raw h]
    rfl
  exact ⟨fetch_paginated_empty parse_pmaw_submission_request search s e cs lim retries b0 tcs hc hsub,
    fetch_paginated_empty parse_pmaw_comment_request search s e cs lim retries b0 tcs hc hcom,
    fetch_paginated_empty parse_pmaw_submission_request search s e cs lim retries b0 tcs hc hsub⟩

/-- C9 witness: `c9_none_on_no_records` applied to the always-failing backend
over the single interval 0..10. -/
theorem c9_witness :
    (∃ sl, retrieve_subreddit_submissions (fun _ _ _ _ => none) 0 10 none (some 100) 3 2 =
      Except.ok (none, sl)) ∧
    (∃ sl, retrieve_author_comments (fun _ _ _ _ => none) 0 10 none (some 100) 3 2 =
      Except.ok (none, sl)) ∧
    (∃ sl, retrieve_author_submissions (fun _ _ _ _ => none) 0 10 none (some 100) 3 2 =
      Except.ok (none, sl)) :=
  c9_none_on_no_records (fun _ _ _ _ => none) 0 10 none (some 100) 3 2 [0, 10] (by rfl)
    (fun x y L k raw h => nomatch h)

/-! Submission-comment retrieval lemmas. -/

lemma drop_duplicates_keep_last_subset :
    ∀ (l : List Post) (r : Post), r ∈ drop_duplicates_keep_last l → r ∈ l := by
  intro l
  induction l with
  | nil => intro r hr; exact absurd hr (List.not_mem_nil r)
  | cons a t ih =>
    intro r hr
    rw [drop_duplicates_keep_last] at hr
    by_cases h : t.any (fun x => x.id == a.id)
    · rw [if_pos h] at hr
      exact List.mem_cons_of_mem a (ih r hr)
    · rw [if_neg h] at hr
      rcases List.mem_cons.mp hr with h' | h'
      · exact h' ▸ List.mem_cons_self a t
      · exact List.mem_cons_of_mem a (ih r h')

lemma pmaw_phase_mem (idb : IdBackend) (id_fuel : Nat) (search_comments : List Nat → List Post)
    (subs : List String) (s e : Int) (cd : List Post) (miss : List String)
    (h : pmaw_phase idb id_fuel search_comments subs s e = (some cd, miss)) :
    ∀ r ∈ cd, ∃ ids, r ∈ search_comments ids := by
  rw [pmaw_phase] at h
  split at h
  · obtain ⟨hcd, _⟩ := Prod.mk.injEq _ _ _ _ ▸ h
    have hcd' := Option.some.inj hcd
    intro r hr
    rw [← hcd'] at hr
    obtain ⟨d, hd, hrd⟩ := List.mem_flatten.mp (mem_sortByCreated.mp hr)
    obtain ⟨ch, _, hchd⟩ := List.mem_map.mp (List.mem_of_mem_filter hd)
    refine ⟨ch, ?_⟩
    rw [← hchd] at hrd
    exact (parse_comment_perm _).mem_iff.mp hrd
  · exact absurd (congrArg Prod.fst h) (by simp)

lemma pmaw_phase_empty (idb : IdBackend) (id_fuel : Nat) (search_comments : List Nat → List Post)
    (subs : List String) (s e : Int) (hsearch : ∀ ids, search_comments ids = []) :
    pmaw_phase idb id_fuel search_comments subs s e = (none, subs) := by
  rw [pmaw_phase]
  have hfil :
      ((chunks_of 100 (retrieve_submission_comment_ids idb id_fuel s e [])).map
        (fun ch => parse_pmaw_comment_request (search_comments ch))).filter
          (fun d => 0 < d.length) = [] := by
    rw [List.filter_eq_nil_iff]
    intro d hd
    obtain ⟨ch, _, hchd⟩ := List.mem_map.mp hd
    rw [← hchd, hsearch ch]
    simp [parse_pmaw_comment_request]
  rw [hfil]
  rfl

lemma reduceOption_map_none {α β : Type} (p : α → Option β) (hp : ∀ x, p x = none) :
    ∀ l : List α, (l.map p).reduceOption = [] := by
  intro l
  induction l with
  | nil => rfl
  | cons a t ih => simp [hp a, List.reduceOption_cons_of_none, ih]

/-- C7: if the fallback backend is disabled — no PRAW instance configured
(`praw = none`) or fallback not permitted (`allow_praw = false`) — then
`retrieve_submission_comments` returns normally (no exception), and every
submission for which the primary backend returned no comment records remains
absent from the final result. -/
theorem c7_fallback_disabled (init_praw : Bool) (praw : Option (String → Option (List Post)))
    (allow_praw : Bool) (idb : IdBackend) (id_fuel : Nat)
    (search_comments : List Nat → List Post) (subs : List String) (s e : Int) (sub : String)
    (hdis : praw = none ∨ allow_praw = false)
    (habsent : ∀ ids, ∀ r ∈ search_comments ids, r.link_id ≠ sub) :
    ∃ res, retrieve_submission_comments init_praw praw allow_praw idb id_fuel search_comments
        subs s e = Except.ok res ∧ ∀ r ∈ res, r.link_id ≠ sub := by
  rw [retrieve_submission_comments]
  have hcond : ¬ (0 < (if (!init_praw || (init_praw && praw.isNone)) = true then
      pmaw_phase idb id_fuel search_comments subs s e
    else (none, subs)).2.length ∧ praw.isSome = true ∧ allow_praw = true) := by
    rcases hdis with h | h
    · rw [h]
      intro hcontra
      simpa using hcontra.2.1
    · rw [h]
      intro hcontra
      simpa using hcontra.2.2
  rw [if_neg hcond]
  rcases hpair : (if (!init_praw || (init_praw && praw.isNone)) = true then
      pmaw_phase idb id_fuel search_comments subs s e
    else (none, subs)) with ⟨cd, miss⟩
  cases cd with
  | none => exact ⟨[], rfl, fun r hr => absurd hr (List.not_mem_nil r)⟩
  | some l =>
    have hmem : ∀ r ∈ l, ∃ ids, r ∈ search_comments ids := by
      by_cases hb : (!init_praw || (init_praw && praw.isNone)) = true
      · rw [if_pos hb] at hpair
        exact pmaw_phase_mem idb id_fuel search_comments subs s e l miss hpair
      · rw [if_neg hb] at hpair
        exact absurd (congrArg Prod.fst hpair) (by simp)
    refine ⟨if 0 < l.length then drop_duplicates_keep_last l else l, rfl, ?_⟩
    intro r hr
    have hrl : r ∈ l := by
      by_cases hz : 0 < l.length
      · rw [if_pos hz] at hr
        exact drop_duplicates_keep_last_subset l r hr
      · rw [if_neg hz] at hr
        exact hr
    obtain ⟨ids, hids⟩ := hmem r hrl
    exact habsent ids r hids

/-- C7 witness: `c7_fallback_disabled` with no PRAW instance configured, a
primary backend returning nothing, and requested submission "x". -/
theorem c7_witness :
    ∃ res, retrieve_submission_comments false none true (fun _ _ => []) 1 (fun _ => []) ["x"] 0 10
        = Except.ok res ∧ ∀ r ∈ res, r.link_id ≠ "x" :=
  c7_fallback_disabled false none true (fun _ _ => []) 1 (fun _ => []) ["x"] 0 10 "x"
    (Or.inl rfl) (fun _ r hr => absurd hr (List.not_mem_nil r))

/-- C10: with the fallback enabled (`praw` configured, `allow_praw` true), a
non-empty requested submission list, a primary PMAW path yielding no comment
records, and a fallback yielding nothing for every missing submission,
`retrieve_submission_comments` raises (the still-a-Python-list `comment_data`
reaches the `.sort_values` call at `reddit.py` line 808, an
`AttributeError`) instead of returning an empty result. -/
theorem c10_empty_fallback_raises (init_praw : Bool) (p : String → Option (List Post))
    (idb : IdBackend) (id_fuel : Nat) (search_comments : List Nat → List Post)
    (subs : List String) (s e : Int) (hsubs : subs ≠ [])
    (hsearch : ∀ ids, search_comments ids = []) (hpraw : ∀ sub, p sub = none) :
    retrieve_submission_comments init_praw (some p) true idb id_fuel search_comments subs s e =
      Except.error () := by
  rw [retrieve_submission_comments]
  have hpair : (if (!init_praw || (init_praw && (some p).isNone)) = true then
      pmaw_phase idb id_fuel search_comments subs s e
    else (none, subs)) = ((none : Option (List Post)), subs) := by
    split
    · exact pmaw_phase_empty idb id_fuel search_comments subs s e hsearch
    · rfl
  rw [hpair]
  have hcond : 0 < subs.length ∧ (some p).isSome = true ∧ true = true :=
    ⟨List.length_pos.mpr hsubs, rfl, rfl⟩
  rw [if_pos hcond]
  have hred : ((subs.map ((some p).getD (fun _ => none))).reduceOption) = [] := by
    have : (some p).getD (fun _ => none) = p := rfl
    rw [this]
    exact reduceOption_map_none p hpraw subs
  dsimp only
  rw [hred]
  rfl

/-- C10 witness: `c10_empty_fallback_raises` applied at a concrete instance —
one requested submission "x", empty primary responses, comment-less fallback. -/
theorem c10_witness :
    retrieve_submission_comments false (some (fun _ => none)) true (fun _ _ => []) 1
      (fun _ => []) ["x"] 0 10 = Except.error () :=
  c10_empty_fallback_raises false (fun _ => none) (fun _ _ => []) 1 (fun _ => []) ["x"] 0 10
    (by simp) (fun _ => rfl) (fun _ => rfl)

end Theorems

end Retriever
